import Mathlib

/-!
Verification development for the multi-source citation verifier
(`src/index.ts`).  The pipeline's pure core is shallowly embedded:
the matcher (`calculateMatchScore`), the best-match scan with its
early-exit cutoff, the verification verdict thresholds, the DOI-first
short-circuit, the insufficient-information gate, the deduplicator of
`findVerifiedPapers`, the per-source settlement logic of
`searchMultipleSources`, and the per-source author normalization of
`normalizeResult`.  Network effects are modelled by explicit outcome
environments passed to the embedded functions.
-/

/-- Substring test matching JavaScript `String.prototype.includes`:
`strIncludes s pat` is true iff `pat` occurs contiguously in `s`
(always true for the empty pattern). -/
def strIncludes (s pat : String) : Bool :=
  let sl := s.toList
  let pl := pat.toList
  (List.range (sl.length + 1)).any (fun i => List.take pl.length (List.drop i sl) == pl)

/-- Lower-casing per character, the reducible rendering of JavaScript
`toLowerCase` used throughout the matcher. -/
def jsToLower (s : String) : String := String.mk (s.data.map Char.toLower)

/-- Split of a character list on the space character, mirroring
JavaScript `split(' ')`: never empty, and empty segments are kept. -/
def splitOnSpace : List Char → List (List Char)
  | [] => [[]]
  | c :: rest =>
    match splitOnSpace rest with
    | [] => [[]]
    | h :: t => if c = ' ' then [] :: h :: t else (c :: h) :: t

/-- Split of a string on the space character. -/
def jsSplitOnSpace (s : String) : List String :=
  (splitOnSpace s.data).map String.mk

/-- First `n` characters of a string, as `substring(0, n)` takes them. -/
def takeChars (s : String) (n : Nat) : String := String.mk (s.data.take n)

/-- Whitespace trim on both ends, as JavaScript `trim` performs it. -/
def jsTrim (s : String) : String :=
  String.mk (((s.data.dropWhile Char.isWhitespace).reverse.dropWhile Char.isWhitespace).reverse)

/-- Test for a literal leading substring. -/
def strStartsWith (s pre : String) : Bool := pre.data.isPrefixOf s.data

/-- Removal of the first `n` characters of a string. -/
def dropChars (s : String) (n : Nat) : String := String.mk (s.data.drop n)

/-- Join of a string list with single-space separators, as
`authors.join(" ")` builds the query part. -/
def joinSpace : List String → String
  | [] => ""
  | [x] => x
  | x :: xs => x ++ " " ++ joinSpace xs

/-- Canonical record shape produced by the normalizer (`NormalizedPaper`
in `index.ts`).  Every field apart from `source` is optional. -/
structure NormalizedPaper where
  source : String
  title : Option String := none
  authors : Option (List String) := none
  year : Option Int := none
  doi : Option String := none
  journal : Option String := none
  deriving DecidableEq, Repr

/-- Caller-supplied partial citation: the argument object of the
`verifyCitation` tool. -/
structure MatchQuery where
  title : Option String := none
  authors : Option (List String) := none
  year : Option Int := none
  doi : Option String := none
  journal : Option String := none
  deriving DecidableEq, Repr

/-- Embedding of `calculateMatchScore` (index.ts lines 347-376).
JavaScript truthiness guards are rendered explicitly: an empty string
title and a zero year count as absent, exactly as `filters.title &&
result.title` and `filters.year && result.year` behave.  The author
last name is the final segment of a split on the space character,
defaulting to the empty string, as `split(' ').pop() || ''` does. -/
def calculateMatchScore (result : NormalizedPaper) (filters : MatchQuery) : Nat :=
  let score : Nat := 0
  let score : Nat :=
    match filters.title, result.title with
    | some ft, some rt =>
      if ft = "" ∨ rt = "" then score
      else
        let ftl := jsToLower ft
        let rtl := jsToLower rt
        if strIncludes rtl (takeChars ftl 30) then score + 3 else score
    | _, _ => score
  let score : Nat :=
    match filters.year, result.year with
    | some fy, some ry =>
      if fy = 0 ∨ ry = 0 then score
      else if ry = fy then score + 3
      else if (ry - fy).natAbs ≤ 1 then score + 1
      else score
    | _, _ => score
  let score : Nat :=
    match filters.authors, result.authors with
    | some fas, some ras =>
      if fas = [] ∨ ras = [] then score
      else
        let rasL := ras.map jsToLower
        let matched := fas.filter (fun fa =>
          let lastName := (jsSplitOnSpace (jsToLower fa)).getLastD ""
          rasL.any (fun ra => strIncludes ra lastName))
        score + matched.length * 2
    | _, _ => score
  score

/-- Last-name token of a query author, per the claim's description:
the final space-delimited segment of the lower-cased name. -/
def lastNameOf (fa : String) : String :=
  (jsSplitOnSpace (jsToLower fa)).getLastD ""

/-- Title component of the score as the claim describes it: +3 when both
sides carry a (non-empty) title and the candidate's lower-cased title
contains the first 30 characters of the query's lower-cased title. -/
def titleScore (result : NormalizedPaper) (filters : MatchQuery) : Nat :=
  match filters.title, result.title with
  | some ft, some rt =>
    if ft ≠ "" ∧ rt ≠ "" ∧ strIncludes (jsToLower rt) (takeChars (jsToLower ft) 30) then 3 else 0
  | _, _ => 0

/-- Year component of the score as the claim describes it: +3 on equal
(non-zero) years, +1 when they differ by exactly 1, +0 otherwise. -/
def yearScore (result : NormalizedPaper) (filters : MatchQuery) : Nat :=
  match filters.year, result.year with
  | some fy, some ry =>
    if fy ≠ 0 ∧ ry ≠ 0 then
      if ry = fy then 3
      else if (ry - fy).natAbs = 1 then 1
      else 0
    else 0
  | _, _ => 0

/-- Author component of the score as the claim describes it: +2 for each
query author whose last-name token occurs as a substring of some
candidate author's name (case-insensitively), with no cap. -/
def authorScore (result : NormalizedPaper) (filters : MatchQuery) : Nat :=
  match filters.authors, result.authors with
  | some fas, some ras =>
    (fas.countP (fun fa => ras.any (fun ra => strIncludes (jsToLower ra) (lastNameOf fa)))) * 2
  | _, _ => 0

/-- Maximum matcher score over a candidate list (0 for the empty list). -/
def maxScore (q : MatchQuery) (l : List NormalizedPaper) : Nat :=
  List.foldr (fun p m => max (calculateMatchScore p q) m) 0 l

/-- Embedding of the best-match loop of `verifyCitation` (index.ts lines
505-515): keeps the running best on strict improvement and breaks out as
soon as the updated best reaches the cutoff of 8. -/
def scanLoop (q : MatchQuery) : List NormalizedPaper → Option NormalizedPaper × Nat → Option NormalizedPaper × Nat
  | [], acc => acc
  | r :: rest, acc =>
    let s := calculateMatchScore r q
    if acc.2 < s then
      if 8 ≤ s then (some r, s) else scanLoop q rest (some r, s)
    else scanLoop q rest acc

/-- Result shape of the embedded `verifyCitation` pipeline.  Besides the
JSON fields returned to the caller it records which network phases ran:
`doiInvoked` is true iff the direct DOI lookup was issued, and
`searchInvoked` is true iff the multi-source fan-out was issued. -/
structure VerifyOutput where
  verified : Bool
  confidence : Option String := none
  source : Option String := none
  doi : Option String := none
  message : String
  possibleMatches : List NormalizedPaper := []
  best : Option NormalizedPaper := none
  doiInvoked : Bool := false
  searchInvoked : Bool := false
  deriving DecidableEq, Repr

/-- Embedding of the decision stage of `verifyCitation` (index.ts lines
502-553) applied to the already-normalized candidate list: run the
early-exit scan, refuse below the threshold of 3 (returning the first
up-to-3 candidates as possible matches), otherwise accept with
confidence high at 5 and medium below. -/
def matchVerdict (q : MatchQuery) (allResults : List NormalizedPaper) : VerifyOutput :=
  if (scanLoop q allResults (none, 0)).1 = none ∨ (scanLoop q allResults (none, 0)).2 < 3 then
    { verified := false
      message := "⚠ Could not confidently verify citation - may be incorrect"
      possibleMatches := allResults.take 3 }
  else
    { verified := true
      confidence := some (if 5 ≤ (scanLoop q allResults (none, 0)).2 then "high" else "medium")
      source := (scanLoop q allResults (none, 0)).1.map (fun p => p.source)
      doi := (scanLoop q allResults (none, 0)).1.bind (fun p => p.doi)
      best := (scanLoop q allResults (none, 0)).1
      message := if 5 ≤ (scanLoop q allResults (none, 0)).2 then "✓ Citation verified with high confidence"
                 else "✓ Citation found (verify details match)" }

/-- Query parts assembled by `verifyCitation` (index.ts lines 430-434):
a truthy title, a non-empty author list and a truthy journal each
contribute one part; year and DOI contribute none. -/
def queryParts (q : MatchQuery) : List String :=
  (match q.title with
   | some t => if t ≠ "" then [t] else []
   | none => []) ++
  (match q.authors with
   | some aus => if aus ≠ [] then [joinSpace aus] else []
   | none => []) ++
  (match q.journal with
   | some j => if j ≠ "" then [j] else []
   | none => [])

/-- True iff the query carries a truthy title, per `if (title)`. -/
def hasTitlePart (q : MatchQuery) : Bool :=
  match q.title with
  | some t => t ≠ ""
  | none => false

/-- True iff the query carries a non-empty author list, per
`if (authors && authors.length > 0)`. -/
def hasAuthorsPart (q : MatchQuery) : Bool :=
  match q.authors with
  | some aus => aus ≠ []
  | none => false

/-- True iff the query carries a truthy journal, per `if (journal)`. -/
def hasJournalPart (q : MatchQuery) : Bool :=
  match q.journal with
  | some j => j ≠ ""
  | none => false

/-- Search phase of `verifyCitation` after the DOI short-circuit
(index.ts lines 430-553): reject with the insufficient-information
message when no query part exists (issuing no fan-out call), report
no-match when the normalized result list is empty, and otherwise decide
via `matchVerdict`.  The `papers` argument stands for the list that the
fan-out plus normalization would produce, and `dinv` records whether a
DOI lookup has already been issued. -/
def searchPhase (q : MatchQuery) (papers : List NormalizedPaper) (dinv : Bool) : VerifyOutput :=
  if queryParts q = [] then
    { verified := false
      message := "Insufficient information to verify citation"
      doiInvoked := dinv
      searchInvoked := false }
  else if papers = [] then
    { verified := false
      message := "⚠ No matching publications found in any database - this citation may be incorrect"
      doiInvoked := dinv
      searchInvoked := true }
  else
    { matchVerdict q papers with doiInvoked := dinv, searchInvoked := true }

/-- Metadata returned by a successful DOI resolution. -/
structure DoiMeta where
  DOI : Option String := none
  title : Option String := none
  deriving DecidableEq, Repr

/-- Outcome of the direct DOI lookup: parsed metadata on a success
response, `notOk` for a non-success status, `err` for a thrown transport
or body-parse error. -/
inductive DoiOutcome where
  | ok (md : DoiMeta)
  | notOk
  | err (msg : String)
  deriving DecidableEq, Repr

/-- Prefix stripping applied to a supplied DOI (index.ts line 399),
mirroring the regex replacement on
an optional scheme, an optional `dx.` and a required `doi.org/`; when
the full pattern does not match at the start, the string is unchanged. -/
def cleanDoi (s : String) : String :=
  let t := if strStartsWith s "https://" then dropChars s 8
           else if strStartsWith s "http://" then dropChars s 7
           else s
  let u := if strStartsWith t "dx." then dropChars t 3 else t
  if strStartsWith u "doi.org/" then dropChars u 8 else s

/-- Environment of the embedded `verifyCitation`: the DOI-resolution
outcome per cleaned DOI, and the normalized papers the fan-out would
produce for this query. -/
structure VerifyEnv where
  doiLookup : String → DoiOutcome
  papers : List NormalizedPaper

/-- Embedding of the outer control flow of `verifyCitation` (index.ts
lines 396-553): when a truthy DOI is supplied, try the direct lookup
on the cleaned DOI first and return a verified `DOI.org` result on
success; on any lookup failure fall through silently to the search
phase. -/
def verifyCitation (q : MatchQuery) (env : VerifyEnv) : VerifyOutput :=
  match q.doi with
  | some d =>
    if d ≠ "" then
      match env.doiLookup (cleanDoi d) with
      | DoiOutcome.ok md =>
        { verified := true
          source := some "DOI.org"
          doi := md.DOI
          message := "✓ Citation verified via DOI"
          doiInvoked := true
          searchInvoked := false }
      | _ => searchPhase q env.papers true
    else searchPhase q env.papers false
  | none => searchPhase q env.papers false

/-- Deduplication key computed by `findVerifiedPapers` (index.ts line
825): `paper.doi || paper.title?.toLowerCase()`, gated by JavaScript
truthiness — a falsy (absent or empty) key means the record is skipped,
which is rendered as `none`. -/
def jsKey (p : NormalizedPaper) : Option String :=
  let k : Option String :=
    match p.doi with
    | some d => if d ≠ "" then some d else p.title.map jsToLower
    | none => p.title.map jsToLower
  match k with
  | some s => if s ≠ "" then some s else none
  | none => none

/-- Embedding of the dedup loop of `findVerifiedPapers` (index.ts lines
821-830): walk the list with the set of keys seen so far, keeping a
record iff its key exists and was not seen before. -/
def dedupeGo : List NormalizedPaper → List String → List NormalizedPaper
  | [], _ => []
  | p :: rest, seen =>
    match jsKey p with
    | some k => if k ∈ seen then dedupeGo rest seen else p :: dedupeGo rest (k :: seen)
    | none => dedupeGo rest seen

/-- Deduplicator of `findVerifiedPapers`, started with no key seen. -/
def dedupe (l : List NormalizedPaper) : List NormalizedPaper :=
  dedupeGo l []

/-- Deduplication key as the claim describes it: the DOI when present
(and non-empty), otherwise the lower-cased title, and nothing when both
are missing or resolve empty. -/
def specKey (p : NormalizedPaper) : Option String :=
  let titleKey : Option String :=
    match p.title with
    | some t => if jsToLower t ≠ "" then some (jsToLower t) else none
    | none => none
  match p.doi with
  | some d => if d ≠ "" then some d else titleKey
  | none => titleKey

/-- Reference deduplicator built from the claim's words: a record is
kept iff it has a key and no earlier record of the input carries the
same key; `pfx` accumulates the records already passed. -/
def specFilter : List NormalizedPaper → List NormalizedPaper → List NormalizedPaper
  | _, [] => []
  | pfx, p :: rest =>
    match specKey p with
    | some k =>
      if k ∈ pfx.filterMap specKey then specFilter (pfx ++ [p]) rest
      else p :: specFilter (pfx ++ [p]) rest
    | none => specFilter (pfx ++ [p]) rest

/-- Reference deduplicator over the whole input. -/
def dedupeSpec (l : List NormalizedPaper) : List NormalizedPaper :=
  specFilter [] l

/-- Raw record of one source, opaque for the purposes of the fan-out
aggregate. -/
structure RawRecord where
  rid : Nat
  deriving DecidableEq, Repr

/-- The nine configured sources, in the configuration order of the
`Promise.allSettled` array of `searchMultipleSources`. -/
inductive SourceKind where
  | crossref | openalex | pubmed | zbmath | eric | hal | inspirehep | semanticscholar | dblp
  deriving DecidableEq, Repr

/-- Source-configuration order of the adapter array (index.ts lines
80-224). -/
def sourceOrder : List SourceKind :=
  [SourceKind.crossref, SourceKind.openalex, SourceKind.pubmed, SourceKind.zbmath,
   SourceKind.eric, SourceKind.hal, SourceKind.inspirehep, SourceKind.semanticscholar,
   SourceKind.dblp]

/-- Display names used for the error strings (index.ts line 232),
positionally aligned with `sourceOrder`. -/
def displayName : SourceKind → String
  | SourceKind.crossref => "CrossRef"
  | SourceKind.openalex => "OpenAlex"
  | SourceKind.pubmed => "PubMed"
  | SourceKind.zbmath => "zbMATH"
  | SourceKind.eric => "ERIC"
  | SourceKind.hal => "HAL"
  | SourceKind.inspirehep => "INSPIRE-HEP"
  | SourceKind.semanticscholar => "Semantic Scholar"
  | SourceKind.dblp => "DBLP"

/-- True for the three adapters whose bodies wrap their own try/catch
(ERIC, HAL, INSPIRE-HEP): a thrown error there is swallowed into an
empty list instead of rejecting the settled promise. -/
def catchesInternally : SourceKind → Bool
  | SourceKind.eric => true
  | SourceKind.hal => true
  | SourceKind.inspirehep => true
  | _ => false

/-- Summarized network outcome of one adapter's request chain: a success
response with parsed records, a non-success status, or a thrown error
(network failure, timeout, malformed body). -/
inductive FetchOutcome where
  | ok (data : List RawRecord)
  | httpFail
  | reject (msg : String)
  deriving DecidableEq, Repr

/-- Settlement of one adapter per the adapter bodies (index.ts lines
82-223): a success response yields its records, a non-success status
yields an empty list, and a thrown error yields an empty list for the
internally-catching adapters and a rejection message otherwise. -/
def adapterSettle (src : SourceKind) (o : FetchOutcome) : Except String (List RawRecord) :=
  match o with
  | FetchOutcome.ok d => Except.ok d
  | FetchOutcome.httpFail => Except.ok []
  | FetchOutcome.reject m =>
    if catchesInternally src then Except.ok [] else Except.error m

/-- Aggregate built by `searchMultipleSources`: one optional raw list
per source plus the accumulated error strings. -/
structure SearchResults where
  crossref : Option (List RawRecord) := none
  openalex : Option (List RawRecord) := none
  pubmed : Option (List RawRecord) := none
  zbmath : Option (List RawRecord) := none
  semanticscholar : Option (List RawRecord) := none
  dblp : Option (List RawRecord) := none
  eric : Option (List RawRecord) := none
  hal : Option (List RawRecord) := none
  inspirehep : Option (List RawRecord) := none
  errors : List String := []
  deriving DecidableEq, Repr

/-- Field of the aggregate assigned to one source. -/
def getField (r : SearchResults) : SourceKind → Option (List RawRecord)
  | SourceKind.crossref => r.crossref
  | SourceKind.openalex => r.openalex
  | SourceKind.pubmed => r.pubmed
  | SourceKind.zbmath => r.zbmath
  | SourceKind.eric => r.eric
  | SourceKind.hal => r.hal
  | SourceKind.inspirehep => r.inspirehep
  | SourceKind.semanticscholar => r.semanticscholar
  | SourceKind.dblp => r.dblp

/-- Assignment of the aggregate field of one source. -/
def setField (r : SearchResults) (src : SourceKind) (v : Option (List RawRecord)) : SearchResults :=
  match src with
  | SourceKind.crossref => { r with crossref := v }
  | SourceKind.openalex => { r with openalex := v }
  | SourceKind.pubmed => { r with pubmed := v }
  | SourceKind.zbmath => { r with zbmath := v }
  | SourceKind.eric => { r with eric := v }
  | SourceKind.hal => { r with hal := v }
  | SourceKind.inspirehep => { r with inspirehep := v }
  | SourceKind.semanticscholar => { r with semanticscholar := v }
  | SourceKind.dblp => { r with dblp := v }

/-- Error string pushed for a rejected adapter (index.ts line 233),
with the falsy-message fallback of `reason?.message || 'Unknown
error'`. -/
def errorStringOf (src : SourceKind) (m : String) : String :=
  displayName src ++ " error: " ++ (if m = "" then "Unknown error" else m)

/-- One step of the `forEach` over settled adapter results (index.ts
lines 227-235): a fulfilled adapter stores its list under its source
field, a rejected one appends its error string. -/
def stepResult (env : SourceKind → FetchOutcome) (acc : SearchResults) (src : SourceKind) : SearchResults :=
  match adapterSettle src (env src) with
  | Except.ok d => setField acc src (some d)
  | Except.error m => { acc with errors := acc.errors ++ [errorStringOf src m] }

/-- Embedding of `searchMultipleSources` (index.ts lines 65-238) over a
per-source network outcome environment. -/
def searchMultipleSources (env : SourceKind → FetchOutcome) : SearchResults :=
  List.foldl (stepResult env) {} sourceOrder

/-- Error string a source contributes to the aggregate, if any. -/
def errOf (env : SourceKind → FetchOutcome) (src : SourceKind) : Option String :=
  match adapterSettle src (env src) with
  | Except.ok _ => none
  | Except.error m => some (errorStringOf src m)

/-- Record list a source contributes to the aggregate, if any. -/
def fieldOutcome (env : SourceKind → FetchOutcome) (src : SourceKind) : Option (List RawRecord) :=
  match adapterSettle src (env src) with
  | Except.ok d => some d
  | Except.error _ => none

/-- Value occurring in a normalized authors array as JavaScript produces
it: a string, an `undefined` hole, or a kept non-string object. -/
inductive JsVal where
  | str (s : String)
  | undef
  | obj
  deriving DecidableEq, Repr

/-- JavaScript truthiness of an authors-array value: a non-empty string
or an object is truthy, `undefined` and the empty string are falsy. -/
def jsTruthy : JsVal → Bool
  | JsVal.str s => s ≠ ""
  | JsVal.undef => false
  | JsVal.obj => true

/-- CrossRef raw author: optional given and family names. -/
structure CrossrefAuthor where
  given : Option String := none
  family : Option String := none
  deriving DecidableEq, Repr

/-- CrossRef author mapping (index.ts line 248):
the trim of `(given || '') + ' ' + (family || '')`, with no filtering. -/
def crossrefAuthors (o : Option (List CrossrefAuthor)) : Option (List JsVal) :=
  o.map (fun l => l.map (fun a =>
    JsVal.str (jsTrim ((a.given.getD "") ++ " " ++ (a.family.getD "")))))

/-- OpenAlex nested author record with an optional display name. -/
structure OpenAlexAuthor where
  display_name : Option String := none
  deriving DecidableEq, Repr

/-- OpenAlex raw authorship: an optional nested author wrapper. -/
structure OpenAlexAuthorship where
  author : Option OpenAlexAuthor := none
  deriving DecidableEq, Repr

/-- OpenAlex author mapping (index.ts line 258): map to
`a.author?.display_name` then `filter(Boolean)`. -/
def openalexAuthors (o : Option (List OpenAlexAuthorship)) : Option (List JsVal) :=
  o.map (fun l => (l.map (fun a =>
    match a.author with
    | some au =>
      match au.display_name with
      | some s => JsVal.str s
      | none => JsVal.undef
    | none => JsVal.undef)).filter jsTruthy)

/-- PubMed raw author: an optional name. -/
structure PubmedAuthor where
  name : Option String := none
  deriving DecidableEq, Repr

/-- PubMed author mapping (index.ts line 271): map to `a.name` with no
filtering, so a missing name stays as an `undefined` hole. -/
def pubmedAuthors (o : Option (List PubmedAuthor)) : Option (List JsVal) :=
  o.map (fun l => l.map (fun a =>
    match a.name with
    | some s => JsVal.str s
    | none => JsVal.undef))

/-- zbMATH raw author entry: either an object carrying an optional name
or a plain string. -/
inductive ZbAuthorVal where
  | named (name : Option String)
  | plain (s : String)
  deriving DecidableEq, Repr

/-- zbMATH author mapping (index.ts line 281): `a.name || a` then
`filter(Boolean)` — an object with a falsy name falls back to the
(truthy) object itself. -/
def zbAuthors (o : Option (List ZbAuthorVal)) : Option (List JsVal) :=
  o.map (fun l => (l.map (fun a =>
    match a with
    | ZbAuthorVal.named (some s) => if s ≠ "" then JsVal.str s else JsVal.obj
    | ZbAuthorVal.named none => JsVal.obj
    | ZbAuthorVal.plain s => JsVal.str s)).filter jsTruthy)

/-- ERIC author mapping (index.ts line 291): `author?.filter(Boolean)`
on the raw array. -/
def ericAuthors (o : Option (List JsVal)) : Option (List JsVal) :=
  o.map (fun l => l.filter jsTruthy)

/-- HAL author mapping (index.ts line 301): the raw `authFullName_s`
array passed through unchanged. -/
def halAuthors (o : Option (List JsVal)) : Option (List JsVal) :=
  o

/-- INSPIRE-HEP raw author: an optional full name. -/
structure InspireAuthor where
  full_name : Option String := none
  deriving DecidableEq, Repr

/-- INSPIRE-HEP author mapping (index.ts line 312): map to `full_name`
then `filter(Boolean)`. -/
def inspireAuthors (o : Option (List InspireAuthor)) : Option (List JsVal) :=
  o.map (fun l => (l.map (fun a =>
    match a.full_name with
    | some s => JsVal.str s
    | none => JsVal.undef)).filter jsTruthy)

/-- Semantic Scholar raw author: an optional name. -/
structure S2Author where
  name : Option String := none
  deriving DecidableEq, Repr

/-- Semantic Scholar author mapping (index.ts line 322): map to `name`
then `filter(Boolean)`. -/
def s2Authors (o : Option (List S2Author)) : Option (List JsVal) :=
  o.map (fun l => (l.map (fun a =>
    match a.name with
    | some s => JsVal.str s
    | none => JsVal.undef)).filter jsTruthy)

/-- DBLP raw author value: an object carrying an optional text field, or
a plain string. -/
inductive DblpVal where
  | withText (t : Option String)
  | plain (s : String)
  deriving DecidableEq, Repr

/-- DBLP raw authors field: an array, a single value, or missing. -/
inductive DblpAuthorsField where
  | arr (l : List DblpVal)
  | single (v : DblpVal)
  | missing
  deriving DecidableEq, Repr

/-- DBLP value mapping `a.text || a`: a falsy text falls back to the
value itself (an object, or the plain string). -/
def dblpVal : DblpVal → JsVal
  | DblpVal.withText (some t) => if t ≠ "" then JsVal.str t else JsVal.obj
  | DblpVal.withText none => JsVal.obj
  | DblpVal.plain s => JsVal.str s

/-- DBLP author mapping (index.ts lines 332-336): map the array, wrap a
single value, default to the empty list — with no filtering. -/
def dblpAuthors : DblpAuthorsField → List JsVal
  | DblpAuthorsField.arr l => l.map dblpVal
  | DblpAuthorsField.single v => [dblpVal v]
  | DblpAuthorsField.missing => []

/-- Auxiliary: the empty pattern occurs in every string. -/
theorem strIncludes_empty (s : String) : strIncludes s "" = true := by
  unfold strIncludes
  apply List.any_eq_true.mpr
  refine ⟨0, by simp, by rfl⟩

/-- Auxiliary: mapping `toLower` before an inclusion test equals testing
the lowered element directly. -/
theorem any_map_toLower (ras : List String) (pat : String) :
    (ras.map jsToLower).any (fun ra => strIncludes ra pat)
      = ras.any (fun ra => strIncludes (jsToLower ra) pat) := by
  induction ras with
  | nil => rfl
  | cons a l ih => simp only [List.map_cons, List.any_cons, ih]

/-- Auxiliary: the two author predicates coincide as functions. -/
theorem author_preds_eq (ras : List String) :
    (fun fa => (ras.map jsToLower).any
        (fun ra => strIncludes ra ((jsSplitOnSpace (jsToLower fa)).getLastD "")))
      = (fun fa => ras.any (fun ra => strIncludes (jsToLower ra) (lastNameOf fa))) := by
  funext fa
  rw [lastNameOf, any_map_toLower]

/-- Auxiliary: title step of the matcher rewritten as an added
component. -/
theorem title_comp (acc : Nat) (ft rt : String) :
    (if ft = "" ∨ rt = "" then acc
     else if strIncludes (jsToLower rt) (takeChars (jsToLower ft) 30) then acc + 3 else acc)
      = acc + (if ft ≠ "" ∧ rt ≠ "" ∧ strIncludes (jsToLower rt) (takeChars (jsToLower ft) 30) then 3
        else 0) := by
  split_ifs <;> first | omega | tauto

/-- Auxiliary: year step of the matcher rewritten as an added
component. -/
theorem year_comp (acc : Nat) (fy ry : Int) :
    (if fy = 0 ∨ ry = 0 then acc
     else if ry = fy then acc + 3
     else if (ry - fy).natAbs ≤ 1 then acc + 1
     else acc)
      = acc + (if fy ≠ 0 ∧ ry ≠ 0 then
          if ry = fy then 3 else if (ry - fy).natAbs = 1 then 1 else 0
        else 0) := by
  split_ifs <;> omega

/-- Auxiliary: the author guard of the matcher is redundant, since an
empty side yields zero matched authors anyway. -/
theorem author_comp (acc : Nat) (fas ras : List String) :
    (if fas = [] ∨ ras = [] then acc
     else acc + (fas.filter (fun fa =>
         ras.any (fun ra => strIncludes (jsToLower ra) (lastNameOf fa)))).length * 2)
      = acc + (fas.filter (fun fa =>
          ras.any (fun ra => strIncludes (jsToLower ra) (lastNameOf fa)))).length * 2 := by
  split_ifs with h
  · rcases h with h | h
    · subst h; simp
    · subst h; simp
  · rfl

/-- Auxiliary: the matcher score decomposes into the three independent
components described by the specification. -/
theorem score_decomposition (p : NormalizedPaper) (q : MatchQuery) :
    calculateMatchScore p q = titleScore p q + yearScore p q + authorScore p q := by
  obtain ⟨psrc, pt, pa, py, pd, pj⟩ := p
  obtain ⟨qt, qa, qy, qd, qj⟩ := q
  unfold calculateMatchScore titleScore yearScore authorScore
  rcases qt with _ | ft <;> rcases pt with _ | rt <;>
    rcases qy with _ | fy <;> rcases py with _ | ry <;>
    rcases qa with _ | fas <;> rcases pa with _ | ras <;>
    simp only [title_comp, year_comp, author_comp, List.countP_eq_length_filter,
      author_preds_eq] <;>
    omega

/-- C3: for every `(NormalizedPaper, MatchQuery)` pair,
`calculateMatchScore` equals the sum of the title component (+3 for a
lower-cased containment of the first 30 characters of the query title),
the year component (+3 equal, +1 off by exactly one, +0 otherwise) and
the author component (+2 per query author whose last-name token occurs
in some candidate author's name, uncapped).  Presence of a title, year
or author list follows the code's truthiness guards (non-empty string,
non-zero year, non-empty list), and the last-name token is the final
space-delimited segment. -/
theorem matcher_is_component_sum (p : NormalizedPaper) (q : MatchQuery) :
    calculateMatchScore p q = titleScore p q + yearScore p q + authorScore p q :=
  score_decomposition p q

/-- C10: a query author whose last-name token resolves to the empty
string (an empty author string, or one ending in a space) matches every
candidate that has at least one author, contributing its +2
unconditionally. -/
theorem empty_last_name_always_matches (p : NormalizedPaper) (q : MatchQuery)
    (fas ras : List String) (fa : String)
    (hqa : q.authors = some fas) (hfa : fa ∈ fas)
    (hlast : lastNameOf fa = "")
    (hpa : p.authors = some ras) (hne : ras ≠ []) :
    (ras.any (fun ra => strIncludes (jsToLower ra) (lastNameOf fa))) = true ∧
      2 ≤ calculateMatchScore p q := by
  have hmatch : (ras.any (fun ra => strIncludes (jsToLower ra) (lastNameOf fa))) = true := by
    apply List.any_eq_true.mpr
    rcases List.exists_mem_of_ne_nil ras hne with ⟨ra, hra⟩
    exact ⟨ra, hra, by rw [hlast]; exact strIncludes_empty _⟩
  refine ⟨hmatch, ?_⟩
  rw [score_decomposition]
  have hcount : 1 ≤ fas.countP (fun x =>
      ras.any (fun ra => strIncludes (jsToLower ra) (lastNameOf x))) := by
    apply List.countP_pos_iff.mpr
    exact ⟨fa, hfa, hmatch⟩
  have hauthor : 2 ≤ authorScore p q := by
    simp only [authorScore, hqa, hpa]
    omega
  omega

/-- Witness for C10 at a concrete degenerate query author. -/
theorem empty_last_name_always_matches_witness :
    2 ≤ calculateMatchScore
        { source := "CrossRef", authors := some ["Xu Chen"] }
        { authors := some ["Ann ", "Bo Li"] } :=
  (empty_last_name_always_matches
    { source := "CrossRef", authors := some ["Xu Chen"] }
    { authors := some ["Ann ", "Bo Li"] }
    ["Ann ", "Bo Li"] ["Xu Chen"] "Ann "
    rfl (by decide) (by decide) rfl (by decide)).2

/-- Auxiliary: `maxScore` over a cons. -/
theorem maxScore_cons (q : MatchQuery) (p : NormalizedPaper) (l : List NormalizedPaper) :
    maxScore q (p :: l) = max (calculateMatchScore p q) (maxScore q l) := rfl

/-- Auxiliary: every candidate scores at most `maxScore`. -/
theorem score_le_maxScore (q : MatchQuery) {p : NormalizedPaper} {l : List NormalizedPaper}
    (h : p ∈ l) : calculateMatchScore p q ≤ maxScore q l := by
  induction l with
  | nil => cases h
  | cons a rest ih =>
    rw [maxScore_cons]
    rcases List.mem_cons.mp h with h | h
    · subst h; exact le_max_left _ _
    · exact le_trans (ih h) (le_max_right _ _)

/-- Auxiliary: the scan never decreases the running best. -/
theorem scanLoop_ge (q : MatchQuery) :
    ∀ (l : List NormalizedPaper) (acc : Option NormalizedPaper × Nat),
      acc.2 ≤ (scanLoop q l acc).2 := by
  intro l
  induction l with
  | nil => intro acc; exact le_refl _
  | cons r rest ih =>
    intro acc
    unfold scanLoop
    by_cases h1 : acc.2 < calculateMatchScore r q
    · simp only [h1, if_true]
      by_cases h2 : 8 ≤ calculateMatchScore r q
      · simp only [h2, if_true]; exact le_of_lt h1
      · simp only [h2, if_false]
        have hih := ih (some r, calculateMatchScore r q)
        dsimp only at hih
        omega
    · simp only [h1, if_false]; exact ih acc

/-- Auxiliary: the scan's best never exceeds the larger of the incoming
best and the list maximum. -/
theorem scanLoop_le (q : MatchQuery) :
    ∀ (l : List NormalizedPaper) (acc : Option NormalizedPaper × Nat),
      (scanLoop q l acc).2 ≤ max acc.2 (maxScore q l) := by
  intro l
  induction l with
  | nil => intro acc; exact le_max_left _ _
  | cons r rest ih =>
    intro acc
    rw [maxScore_cons]
    unfold scanLoop
    by_cases h1 : acc.2 < calculateMatchScore r q
    · simp only [h1, if_true]
      by_cases h2 : 8 ≤ calculateMatchScore r q
      · simp only [h2, if_true]
        have ha := le_max_left (calculateMatchScore r q) (maxScore q rest)
        have hb := le_max_right acc.2 (max (calculateMatchScore r q) (maxScore q rest))
        omega
      · simp only [h2, if_false]
        have hih := ih (some r, calculateMatchScore r q)
        dsimp only at hih
        have ha := le_max_left (calculateMatchScore r q) (maxScore q rest)
        have hb := le_max_right acc.2 (max (calculateMatchScore r q) (maxScore q rest))
        have hc : max (calculateMatchScore r q) (maxScore q rest)
            ≤ max acc.2 (max (calculateMatchScore r q) (maxScore q rest)) := hb
        omega
    · simp only [h1, if_false]
      have hih := ih acc
      have ha : max acc.2 (maxScore q rest)
          ≤ max acc.2 (max (calculateMatchScore r q) (maxScore q rest)) :=
        max_le_max (le_refl _) (le_max_right _ _)
      omega

/-- Auxiliary: the scan either attains the true maximum or stopped at a
score of at least the early-exit cutoff 8. -/
theorem scanLoop_hits (q : MatchQuery) :
    ∀ (l : List NormalizedPaper) (acc : Option NormalizedPaper × Nat),
      (scanLoop q l acc).2 = max acc.2 (maxScore q l) ∨ 8 ≤ (scanLoop q l acc).2 := by
  intro l
  induction l with
  | nil =>
    intro acc
    left
    show acc.2 = max acc.2 0
    omega
  | cons r rest ih =>
    intro acc
    rw [maxScore_cons]
    unfold scanLoop
    by_cases h1 : acc.2 < calculateMatchScore r q
    · simp only [h1, if_true]
      by_cases h2 : 8 ≤ calculateMatchScore r q
      · simp only [h2, if_true]
        right; trivial
      · simp only [h2, if_false]
        rcases ih (some r, calculateMatchScore r q) with h | h
        · left
          dsimp only at h
          rw [h, Nat.max_eq_right
            (le_trans (le_of_lt h1) (le_max_left (calculateMatchScore r q) (maxScore q rest)))]
        · right; exact h
    · simp only [h1, if_false]
      rcases ih acc with h | h
      · left
        rw [h, ← Nat.max_assoc, Nat.max_eq_left (Nat.le_of_not_lt h1)]
      · right; exact h

/-- Auxiliary: the returned best candidate carries exactly the returned
best score; starting from an empty accumulator, either some candidate is
selected with its own score, or nothing changed. -/
theorem scanLoop_sound (q : MatchQuery) :
    ∀ (l : List NormalizedPaper) (acc : Option NormalizedPaper × Nat),
      ((∃ p, acc.1 = some p ∧ calculateMatchScore p q = acc.2) →
        ∃ p, (scanLoop q l acc).1 = some p ∧
          calculateMatchScore p q = (scanLoop q l acc).2) ∧
      (acc.1 = none → (∃ p, (scanLoop q l acc).1 = some p ∧
          calculateMatchScore p q = (scanLoop q l acc).2) ∨
        scanLoop q l acc = acc) := by
  intro l
  induction l with
  | nil =>
    intro acc
    exact ⟨fun h => h, fun _ => Or.inr rfl⟩
  | cons r rest ih =>
    intro acc
    constructor
    · intro hsome
      unfold scanLoop
      by_cases h1 : acc.2 < calculateMatchScore r q
      · simp only [h1, if_true]
        by_cases h2 : 8 ≤ calculateMatchScore r q
        · simp only [h2, if_true]
          exact ⟨r, rfl, rfl⟩
        · simp only [h2, if_false]
          exact (ih (some r, calculateMatchScore r q)).1 ⟨r, rfl, rfl⟩
      · simp only [h1, if_false]
        exact (ih acc).1 hsome
    · intro hnone
      unfold scanLoop
      by_cases h1 : acc.2 < calculateMatchScore r q
      · simp only [h1, if_true]
        by_cases h2 : 8 ≤ calculateMatchScore r q
        · simp only [h2, if_true]
          left; exact ⟨r, rfl, rfl⟩
        · simp only [h2, if_false]
          left
          exact (ih (some r, calculateMatchScore r q)).1 ⟨r, rfl, rfl⟩
      · simp only [h1, if_false]
        exact (ih acc).2 hnone

/-- Auxiliary: when no candidate beats the incoming best, the scan
returns its accumulator unchanged. -/
theorem scanLoop_stay (q : MatchQuery) :
    ∀ (l : List NormalizedPaper) (acc : Option NormalizedPaper × Nat),
      (∀ r ∈ l, calculateMatchScore r q ≤ acc.2) → scanLoop q l acc = acc := by
  intro l
  induction l with
  | nil => intro acc _; rfl
  | cons r rest ih =>
    intro acc hall
    unfold scanLoop
    have hr : calculateMatchScore r q ≤ acc.2 := hall r (List.mem_cons_self r rest)
    have h1 : ¬ acc.2 < calculateMatchScore r q := by omega
    simp only [h1, if_false]
    exact ih acc (fun x hx => hall x (List.mem_cons_of_mem r hx))

/-- Auxiliary: below the early-exit cutoff, the scan finds the first
candidate attaining the list maximum, provided the maximum beats the
incoming best. -/
theorem scanLoop_first_max (q : MatchQuery) :
    ∀ (l : List NormalizedPaper) (acc : Option NormalizedPaper × Nat),
      acc.2 < maxScore q l → maxScore q l < 8 →
      scanLoop q l acc =
        (l.find? (fun p => decide (maxScore q l ≤ calculateMatchScore p q)), maxScore q l) := by
  intro l
  induction l with
  | nil =>
    intro acc hlt _
    simp [maxScore] at hlt
  | cons r rest ih =>
    intro acc hlt hcut
    rw [maxScore_cons] at hlt hcut
    have hs_le : calculateMatchScore r q ≤ max (calculateMatchScore r q) (maxScore q rest) :=
      le_max_left _ _
    have hm_le : maxScore q rest ≤ max (calculateMatchScore r q) (maxScore q rest) :=
      le_max_right _ _
    by_cases hfirst : maxScore q rest ≤ calculateMatchScore r q
    · -- the head already attains the maximum
      have hmx : max (calculateMatchScore r q) (maxScore q rest) = calculateMatchScore r q :=
        Nat.max_eq_left hfirst
      rw [maxScore_cons, hmx]
      rw [hmx] at hlt hcut
      unfold scanLoop
      simp only [hlt, if_true]
      have h2 : ¬ 8 ≤ calculateMatchScore r q := by omega
      simp only [h2, if_false]
      have hfind : (r :: rest).find?
          (fun p => decide (calculateMatchScore r q ≤ calculateMatchScore p q)) = some r := by
        rw [List.find?_cons_of_pos]
        simp
      rw [hfind]
      exact scanLoop_stay q rest (some r, calculateMatchScore r q)
        (fun x hx => le_trans (score_le_maxScore q hx) hfirst)
    · -- the maximum lives in the tail and strictly beats the head
      have hlt2 : calculateMatchScore r q < maxScore q rest := Nat.lt_of_not_le hfirst
      have hmx : max (calculateMatchScore r q) (maxScore q rest) = maxScore q rest :=
        Nat.max_eq_right (le_of_lt hlt2)
      rw [maxScore_cons, hmx]
      rw [hmx] at hlt hcut
      have hfind : (r :: rest).find?
          (fun p => decide (maxScore q rest ≤ calculateMatchScore p q)) =
          rest.find? (fun p => decide (maxScore q rest ≤ calculateMatchScore p q)) := by
        rw [List.find?_cons_of_neg]
        simp
        omega
      rw [hfind]
      unfold scanLoop
      by_cases h1 : acc.2 < calculateMatchScore r q
      · simp only [h1, if_true]
        have h2 : ¬ 8 ≤ calculateMatchScore r q := by omega
        simp only [h2, if_false]
        exact ih (some r, calculateMatchScore r q) hlt2 hcut
      · simp only [h1, if_false]
        exact ih acc hlt hcut

/-- C1 (amended): on a non-empty candidate list the verdict accepts
exactly when the exhaustive maximum score is at least 3 and reports high
confidence exactly when it is at least 5; an unverified request returns
the first up-to-3 candidates (in concatenation order, not the
best-scoring ones) as possible matches; and when the maximum is below
the early-exit cutoff 8, the first candidate attaining the maximum is
selected. -/
theorem verdict_thresholds (q : MatchQuery) (l : List NormalizedPaper) (hne : l ≠ []) :
    ((matchVerdict q l).verified = true ↔ 3 ≤ maxScore q l) ∧
    ((matchVerdict q l).confidence = some "high" ↔ 5 ≤ maxScore q l) ∧
    (maxScore q l < 3 → (matchVerdict q l).verified = false ∧
      (matchVerdict q l).possibleMatches = l.take 3) ∧
    (3 ≤ maxScore q l → maxScore q l < 8 →
      (matchVerdict q l).best =
        l.find? (fun p => decide (maxScore q l ≤ calculateMatchScore p q))) := by
  have hle0 := scanLoop_le q l (none, 0)
  have hle : (scanLoop q l (none, 0)).2 ≤ maxScore q l := by
    simpa using hle0
  have hhits0 := scanLoop_hits q l (none, 0)
  have hhits : (scanLoop q l (none, 0)).2 = maxScore q l ∨ 8 ≤ (scanLoop q l (none, 0)).2 := by
    simpa using hhits0
  have hsound := (scanLoop_sound q l (none, 0)).2 rfl
  have hreach3 : 3 ≤ maxScore q l → 3 ≤ (scanLoop q l (none, 0)).2 := by
    intro h3; rcases hhits with h | h <;> omega
  have hreach5 : 5 ≤ maxScore q l → 5 ≤ (scanLoop q l (none, 0)).2 := by
    intro h5; rcases hhits with h | h <;> omega
  have hzero : (scanLoop q l (none, 0)).1 = none → (scanLoop q l (none, 0)).2 = 0 := by
    intro hn
    rcases hsound with ⟨p, hp, _⟩ | heq
    · rw [hp] at hn; cases hn
    · rw [heq]
  by_cases hcond : (scanLoop q l (none, 0)).1 = none ∨ (scanLoop q l (none, 0)).2 < 3
  · have hM : maxScore q l < 3 := by
      rcases hcond with hn | hlt
      · have h0 := hzero hn
        rcases hhits with h | h <;> omega
      · by_contra hge
        have := hreach3 (by omega)
        omega
    unfold matchVerdict
    rw [if_pos hcond]
    refine ⟨?_, ?_, ?_, ?_⟩
    · constructor
      · intro h; cases h
      · intro h3; exact absurd h3 (by omega)
    · constructor
      · intro h; cases h
      · intro h5; exact absurd h5 (by omega)
    · intro _; exact ⟨rfl, rfl⟩
    · intro h3 _; exact absurd h3 (by omega)
  · push_neg at hcond
    obtain ⟨hbm, hbs⟩ := hcond
    have hM3 : 3 ≤ maxScore q l := le_trans hbs hle
    unfold matchVerdict
    rw [if_neg (by push_neg; exact ⟨hbm, hbs⟩)]
    refine ⟨?_, ?_, ?_, ?_⟩
    · simp only [true_iff]; exact hM3
    · constructor
      · intro hhigh
        by_cases h5 : 5 ≤ (scanLoop q l (none, 0)).2
        · exact le_trans h5 hle
        · rw [if_neg h5] at hhigh
          exact absurd (Option.some.inj hhigh) (by decide)
      · intro h5
        rw [if_pos (hreach5 h5)]
    · intro hlt; omega
    · intro h3 h8
      have hfix := scanLoop_first_max q l (none, 0) (by dsimp only; omega) h8
      rw [hfix]

/-- Witness for C1 on a concrete single-candidate list. -/
theorem verdict_thresholds_witness :
    (matchVerdict { title := some "abc" }
      [{ source := "CrossRef", title := some "abc def" }]).verified = true := by
  have h := verdict_thresholds { title := some "abc" }
    [{ source := "CrossRef", title := some "abc def" }] (by decide)
  exact h.1.mpr (by decide)

/-- Counterexample for C1 as frozen.  First scenario: with best score 2
(below 3) the pipeline reports the first three candidates as possible
matches, omitting the unique best-scoring fourth candidate, so the
possible matches are not the best-scoring ones.  Second scenario: a
candidate scoring 8 triggers the early exit, so the selected candidate
is not the first of the two candidates sharing the best score 9. -/
theorem verdict_thresholds_cex :
    ((matchVerdict { title := some "zzz", year := some 2019, authors := some ["Kim"] }
        [{ source := "CrossRef", title := some "aaa" },
         { source := "OpenAlex", title := some "bbb" },
         { source := "PubMed", title := some "ccc" },
         { source := "DBLP", authors := some ["J Kim"] }]).verified = false ∧
      (matchVerdict { title := some "zzz", year := some 2019, authors := some ["Kim"] }
        [{ source := "CrossRef", title := some "aaa" },
         { source := "OpenAlex", title := some "bbb" },
         { source := "PubMed", title := some "ccc" },
         { source := "DBLP", authors := some ["J Kim"] }]).possibleMatches =
        [{ source := "CrossRef", title := some "aaa" },
         { source := "OpenAlex", title := some "bbb" },
         { source := "PubMed", title := some "ccc" }] ∧
      calculateMatchScore { source := "DBLP", authors := some ["J Kim"] }
        { title := some "zzz", year := some 2019, authors := some ["Kim"] } = 2 ∧
      calculateMatchScore { source := "CrossRef", title := some "aaa" }
        { title := some "zzz", year := some 2019, authors := some ["Kim"] } = 0) ∧
    ((matchVerdict
        { title := some "graph colorings", year := some 2020,
          authors := some ["Alice Smith", "Bob Jones", "Carol White"] }
        [{ source := "CrossRef", title := some "Graph colorings", year := some 2020,
           authors := some ["A. Smith"] },
         { source := "OpenAlex", title := some "Graph colorings revisited",
           authors := some ["X Smith", "Y Jones", "Z White"] },
         { source := "PubMed", title := some "New graph colorings",
           authors := some ["N Smith", "M Jones", "K White"] }]).best =
        some { source := "CrossRef", title := some "Graph colorings", year := some 2020,
               authors := some ["A. Smith"] } ∧
      calculateMatchScore
        { source := "CrossRef", title := some "Graph colorings", year := some 2020,
          authors := some ["A. Smith"] }
        { title := some "graph colorings", year := some 2020,
          authors := some ["Alice Smith", "Bob Jones", "Carol White"] } = 8 ∧
      calculateMatchScore
        { source := "OpenAlex", title := some "Graph colorings revisited",
          authors := some ["X Smith", "Y Jones", "Z White"] }
        { title := some "graph colorings", year := some 2020,
          authors := some ["Alice Smith", "Bob Jones", "Carol White"] } = 9 ∧
      calculateMatchScore
        { source := "PubMed", title := some "New graph colorings",
          authors := some ["N Smith", "M Jones", "K White"] }
        { title := some "graph colorings", year := some 2020,
          authors := some ["Alice Smith", "Bob Jones", "Carol White"] } = 9) := by
  decide

/-- C9 (amended): the early-exit scan's best score never exceeds the
exhaustive maximum, equals it whenever the maximum is below the cutoff
8 (and otherwise is itself at least 8), and agrees with the exhaustive
maximum on both verification thresholds; but the selected score can
fall short of the maximum once the cutoff is reached. -/
theorem early_exit_refines (q : MatchQuery) (l : List NormalizedPaper) :
    (scanLoop q l (none, 0)).2 ≤ maxScore q l ∧
    ((scanLoop q l (none, 0)).2 = maxScore q l ∨ 8 ≤ (scanLoop q l (none, 0)).2) ∧
    (3 ≤ (scanLoop q l (none, 0)).2 ↔ 3 ≤ maxScore q l) ∧
    (5 ≤ (scanLoop q l (none, 0)).2 ↔ 5 ≤ maxScore q l) ∧
    (maxScore q l < 8 → (scanLoop q l (none, 0)).2 = maxScore q l) := by
  have hle : (scanLoop q l (none, 0)).2 ≤ maxScore q l := by
    simpa using scanLoop_le q l (none, 0)
  have hhits : (scanLoop q l (none, 0)).2 = maxScore q l ∨ 8 ≤ (scanLoop q l (none, 0)).2 := by
    simpa using scanLoop_hits q l (none, 0)
  refine ⟨hle, hhits, ?_, ?_, ?_⟩
  · constructor
    · intro h; exact le_trans h hle
    · intro h; rcases hhits with he | he <;> omega
  · constructor
    · intro h; exact le_trans h hle
    · intro h; rcases hhits with he | he <;> omega
  · intro h8; rcases hhits with he | he <;> omega

/-- Witness for C9 on a concrete list whose maximum stays below the
cutoff. -/
theorem early_exit_refines_witness :
    (scanLoop { year := some 2000 }
      [{ source := "HAL", year := some 2000 }] (none, 0)).2 =
      maxScore { year := some 2000 } [{ source := "HAL", year := some 2000 }] := by
  have h := early_exit_refines { year := some 2000 } [{ source := "HAL", year := some 2000 }]
  exact h.2.2.2.2 (by decide)

/-- Counterexample for C9 as frozen: with candidate scores 8 and 10 in
that order, the early-exit scan stops at the first candidate and
returns best score 8, strictly below the exhaustive maximum 10, so the
selected candidate's score does not equal the maximum. -/
theorem early_exit_refines_cex :
    (scanLoop
      { title := some "deep learning", year := some 2021,
        authors := some ["Alice Smith", "Bob Jones"] }
      [{ source := "CrossRef", title := some "Deep Learning", year := some 2021,
         authors := some ["A. Smith"] },
       { source := "OpenAlex", title := some "Deep learning methods", year := some 2021,
         authors := some ["Ann Smith", "Bo Jones"] }] (none, 0)).2 = 8 ∧
    maxScore
      { title := some "deep learning", year := some 2021,
        authors := some ["Alice Smith", "Bob Jones"] }
      [{ source := "CrossRef", title := some "Deep Learning", year := some 2021,
         authors := some ["A. Smith"] },
       { source := "OpenAlex", title := some "Deep learning methods", year := some 2021,
         authors := some ["Ann Smith", "Bo Jones"] }] = 10 ∧
    (scanLoop
      { title := some "deep learning", year := some 2021,
        authors := some ["Alice Smith", "Bob Jones"] }
      [{ source := "CrossRef", title := some "Deep Learning", year := some 2021,
         authors := some ["A. Smith"] },
       { source := "OpenAlex", title := some "Deep learning methods", year := some 2021,
         authors := some ["Ann Smith", "Bo Jones"] }] (none, 0)).1 =
      some { source := "CrossRef", title := some "Deep Learning", year := some 2021,
             authors := some ["A. Smith"] } := by
  decide

/-- C4: a query carrying a (non-empty) DOI first attempts the direct
lookup on the prefix-stripped DOI; a successful resolution returns
verified with source DOI.org without invoking the fan-out, and any
lookup failure silently falls through to the search phase, whose result
carries no trace of the failed lookup. -/
theorem doi_first_short_circuit (q : MatchQuery) (env : VerifyEnv) (d : String)
    (hd : q.doi = some d) (hdne : d ≠ "") :
    (∀ md, env.doiLookup (cleanDoi d) = DoiOutcome.ok md →
      verifyCitation q env =
        { verified := true, source := some "DOI.org", doi := md.DOI,
          message := "✓ Citation verified via DOI", doiInvoked := true,
          searchInvoked := false }) ∧
    ((∀ md, env.doiLookup (cleanDoi d) ≠ DoiOutcome.ok md) →
      verifyCitation q env = searchPhase q env.papers true) := by
  constructor
  · intro md hok
    unfold verifyCitation
    rw [hd]
    dsimp only
    rw [if_pos hdne, hok]
  · intro hnot
    unfold verifyCitation
    rw [hd]
    dsimp only
    rw [if_pos hdne]
    cases henv : env.doiLookup (cleanDoi d) with
    | ok md => exact absurd henv (hnot md)
    | notOk => rfl
    | err m => rfl

/-- Witness for C4 on a concrete DOI whose lookup succeeds. -/
theorem doi_first_short_circuit_witness :
    (verifyCitation { doi := some "10.1038/xyz" }
      { doiLookup := fun _ => DoiOutcome.ok { DOI := some "10.1038/xyz" },
        papers := [] }).verified = true ∧
    (verifyCitation { doi := some "10.1038/xyz" }
      { doiLookup := fun _ => DoiOutcome.ok { DOI := some "10.1038/xyz" },
        papers := [] }).searchInvoked = false ∧
    (verifyCitation { doi := some "10.1038/xyz" }
      { doiLookup := fun _ => DoiOutcome.ok { DOI := some "10.1038/xyz" },
        papers := [] }).source = some "DOI.org" := by
  have h := (doi_first_short_circuit { doi := some "10.1038/xyz" }
    { doiLookup := fun _ => DoiOutcome.ok { DOI := some "10.1038/xyz" }, papers := [] }
    "10.1038/xyz" rfl (by decide)).1 { DOI := some "10.1038/xyz" } rfl
  refine ⟨?_, ?_, ?_⟩ <;> rw [h]

/-- C5 (amended): the insufficient-information rejection fires exactly
when the query contributes no query part — no truthy title, no
non-empty author list and no truthy journal; the year plays no role in
the check, and a journal alone avoids it; the rejection issues no
fan-out call, and with no DOI supplied it issues no network call at
all. -/
theorem insufficient_gate (q : MatchQuery) (papers : List NormalizedPaper) (dinv : Bool) :
    ((searchPhase q papers dinv).message = "Insufficient information to verify citation" ↔
      queryParts q = []) ∧
    (queryParts q = [] ↔
      (hasTitlePart q = false ∧ hasAuthorsPart q = false ∧ hasJournalPart q = false)) ∧
    (queryParts q = [] → searchPhase q papers dinv =
      { verified := false, message := "Insufficient information to verify citation",
        doiInvoked := dinv, searchInvoked := false }) ∧
    (∀ y, queryParts { q with year := y } = queryParts q) ∧
    (∀ env : VerifyEnv, q.doi = none → queryParts q = [] →
      verifyCitation q env =
        { verified := false, message := "Insufficient information to verify citation",
          doiInvoked := false, searchInvoked := false }) := by
  have hout : queryParts q = [] → searchPhase q papers dinv =
      { verified := false, message := "Insufficient information to verify citation",
        doiInvoked := dinv, searchInvoked := false } := by
    intro h
    unfold searchPhase
    rw [if_pos h]
  refine ⟨?_, ?_, hout, ?_, ?_⟩
  · constructor
    · intro hmsg
      by_contra hqp
      unfold searchPhase at hmsg
      rw [if_neg hqp] at hmsg
      by_cases hp : papers = []
      · rw [if_pos hp] at hmsg
        dsimp only at hmsg
        exact absurd hmsg (by decide)
      · rw [if_neg hp] at hmsg
        unfold matchVerdict at hmsg
        by_cases hc : (scanLoop q papers (none, 0)).1 = none ∨ (scanLoop q papers (none, 0)).2 < 3
        · rw [if_pos hc] at hmsg
          dsimp only at hmsg
          exact absurd hmsg (by decide)
        · rw [if_neg hc] at hmsg
          dsimp only at hmsg
          by_cases h5 : 5 ≤ (scanLoop q papers (none, 0)).2
          · rw [if_pos h5] at hmsg
            exact absurd hmsg (by decide)
          · rw [if_neg h5] at hmsg
            exact absurd hmsg (by decide)
    · intro h
      rw [hout h]
  · obtain ⟨qt, qa, qy, qd, qj⟩ := q
    unfold queryParts hasTitlePart hasAuthorsPart hasJournalPart
    rcases qt with _ | t <;> rcases qa with _ | aus <;> rcases qj with _ | j <;>
      dsimp only <;> (try split_ifs) <;> simp_all
  · intro y
    obtain ⟨qt, qa, qy, qd, qj⟩ := q
    rfl
  · intro env hdoi hqp
    unfold verifyCitation
    rw [hdoi]
    dsimp only
    unfold searchPhase
    rw [if_pos hqp]

/-- Witness for C5 on the all-empty query. -/
theorem insufficient_gate_witness :
    searchPhase {} [] false =
      { verified := false, message := "Insufficient information to verify citation",
        doiInvoked := false, searchInvoked := false } := by
  have h := insufficient_gate {} [] false
  exact h.2.2.1 (by decide)

/-- Counterexample for C5 as frozen.  A query supplying only a year is
rejected as insufficient although the claim says a year suffices to
avoid rejection, and a query supplying only a journal — none of title,
authors, year or DOI — proceeds to the fan-out search instead of being
rejected without a network call. -/
theorem insufficient_gate_cex :
    ((verifyCitation { year := some 2020 }
        { doiLookup := fun _ => DoiOutcome.notOk, papers := [] }).message =
        "Insufficient information to verify citation" ∧
      (verifyCitation { year := some 2020 }
        { doiLookup := fun _ => DoiOutcome.notOk, papers := [] }).verified = false) ∧
    ((verifyCitation { journal := some "Nature" }
        { doiLookup := fun _ => DoiOutcome.notOk, papers := [] }).message ≠
        "Insufficient information to verify citation" ∧
      (verifyCitation { journal := some "Nature" }
        { doiLookup := fun _ => DoiOutcome.notOk, papers := [] }).searchInvoked = true) := by
  decide

/-- Auxiliary: the code's truthiness-gated key equals the key described
by the specification. -/
theorem jsKey_eq_specKey (p : NormalizedPaper) : jsKey p = specKey p := by
  obtain ⟨src, pt, pa, py, pd, pj⟩ := p
  unfold jsKey specKey
  rcases pd with _ | d <;> rcases pt with _ | t <;> dsimp only [Option.map] <;>
    (try split_ifs) <;> simp_all

/-- Auxiliary: a non-empty DOI is the record's key. -/
theorem specKey_of_doi (p : NormalizedPaper) (d : String) (hne : d ≠ "") (hd : p.doi = some d) :
    specKey p = some d := by
  unfold specKey
  rw [hd]
  dsimp only
  rw [if_pos hne]

/-- Auxiliary: without a DOI, the key is the lower-cased title. -/
theorem specKey_of_title (p : NormalizedPaper) (t : String) (hd : p.doi = none)
    (ht : p.title = some t) (hne : jsToLower t ≠ "") :
    specKey p = some (jsToLower t) := by
  unfold specKey
  rw [hd, ht]
  dsimp only
  rw [if_pos hne]

/-- Auxiliary: the seen-set dedup loop equals the reference filter that
re-examines the keys of all earlier records, whenever the seen set
holds exactly the keys of the passed prefix. -/
theorem dedupeGo_eq_specFilter :
    ∀ (l : List NormalizedPaper) (seen : List String) (pfx : List NormalizedPaper),
      (∀ k, k ∈ seen ↔ k ∈ pfx.filterMap specKey) →
      dedupeGo l seen = specFilter pfx l := by
  intro l
  induction l with
  | nil => intro seen pfx _; rfl
  | cons p rest ih =>
    intro seen pfx hinv
    unfold dedupeGo specFilter
    rw [jsKey_eq_specKey]
    cases hk : specKey p with
    | none =>
      apply ih
      intro k
      rw [hinv k, List.filterMap_append]
      simp [hk]
    | some k0 =>
      dsimp only
      by_cases hmem : k0 ∈ seen
      · rw [if_pos hmem, if_pos ((hinv k0).mp hmem)]
        apply ih
        intro k
        rw [hinv k, List.filterMap_append]
        simp only [List.mem_append]
        constructor
        · intro h; exact Or.inl h
        · intro h
          rcases h with h | h
          · exact h
          · have hx : k = k0 := by simpa [hk] using h
            rw [hx]
            exact (hinv k0).mp hmem
      · rw [if_neg hmem, if_neg (fun h => hmem ((hinv k0).mpr h))]
        congr 1
        apply ih
        intro k
        rw [List.mem_cons, List.filterMap_append, List.mem_append, hinv k]
        constructor
        · intro h
          rcases h with h | h
          · right; simp [hk, h]
          · left; exact h
        · intro h
          rcases h with h | h
          · right; exact h
          · left; simpa [hk] using h

/-- C6: the deduplicator keys records by non-empty DOI, falling back to
the lower-cased title, drops keyless records, keeps only first
occurrences (per the order-preserving reference filter), collapses two
records sharing a DOI even with different titles, and collapses two
DOI-less records with the same lower-cased title. -/
theorem dedupe_matches_spec (l : List NormalizedPaper) :
    dedupe l = dedupeSpec l ∧
    (∀ p1 p2 : NormalizedPaper, ∀ d : String, d ≠ "" → p1.doi = some d → p2.doi = some d →
      dedupe [p1, p2] = [p1]) ∧
    (∀ p1 p2 : NormalizedPaper, ∀ t1 t2 : String, p1.doi = none → p2.doi = none →
      p1.title = some t1 → p2.title = some t2 → jsToLower t1 = jsToLower t2 →
      jsToLower t1 ≠ "" → dedupe [p1, p2] = [p1]) ∧
    (∀ p1 : NormalizedPaper, specKey p1 = none → dedupe [p1] = []) := by
  refine ⟨dedupeGo_eq_specFilter l [] [] (by simp), ?_, ?_, ?_⟩
  · intro p1 p2 d hne h1 h2
    unfold dedupe dedupeGo
    rw [jsKey_eq_specKey, specKey_of_doi p1 d hne h1]
    dsimp only
    rw [if_neg (List.not_mem_nil d)]
    unfold dedupeGo
    rw [jsKey_eq_specKey, specKey_of_doi p2 d hne h2]
    dsimp only
    rw [if_pos (List.mem_singleton.mpr rfl)]
    rfl
  · intro p1 p2 t1 t2 hd1 hd2 ht1 ht2 heq hne
    unfold dedupe dedupeGo
    rw [jsKey_eq_specKey, specKey_of_title p1 t1 hd1 ht1 hne]
    dsimp only
    rw [if_neg (List.not_mem_nil _)]
    unfold dedupeGo
    rw [jsKey_eq_specKey, specKey_of_title p2 t2 hd2 ht2 (heq ▸ hne)]
    dsimp only
    rw [if_pos (List.mem_singleton.mpr heq.symm)]
    rfl
  · intro p1 hk
    unfold dedupe dedupeGo
    rw [jsKey_eq_specKey, hk]
    rfl

/-- Witness for C6: two records sharing a DOI collapse to the first. -/
theorem dedupe_matches_spec_witness :
    dedupe [{ source := "CrossRef", title := some "A", doi := some "10.1/a" },
            { source := "OpenAlex", title := some "B", doi := some "10.1/a" }] =
      [{ source := "CrossRef", title := some "A", doi := some "10.1/a" }] := by
  have h := (dedupe_matches_spec []).2.1
    { source := "CrossRef", title := some "A", doi := some "10.1/a" }
    { source := "OpenAlex", title := some "B", doi := some "10.1/a" }
    "10.1/a" (by decide) rfl rfl
  exact h

/-- Auxiliary: the dedup loop never lengthens the list. -/
theorem dedupeGo_length :
    ∀ (l : List NormalizedPaper) (seen : List String),
      (dedupeGo l seen).length ≤ l.length := by
  intro l
  induction l with
  | nil => intro seen; exact le_refl _
  | cons p rest ih =>
    intro seen
    unfold dedupeGo
    cases jsKey p with
    | none => exact le_trans (ih seen) (Nat.le_succ _)
    | some k =>
      dsimp only
      by_cases hmem : k ∈ seen
      · rw [if_pos hmem]
        exact le_trans (ih seen) (Nat.le_succ _)
      · rw [if_neg hmem]
        exact Nat.succ_le_succ (ih (k :: seen))

/-- Auxiliary: every kept record has a key outside the incoming seen
set, and kept records have pairwise distinct keys. -/
theorem dedupeGo_keys :
    ∀ (l : List NormalizedPaper) (seen : List String),
      (∀ p ∈ dedupeGo l seen, ∃ k, jsKey p = some k ∧ k ∉ seen) ∧
      (dedupeGo l seen).Pairwise (fun a b => jsKey a ≠ jsKey b) := by
  intro l
  induction l with
  | nil => intro seen; exact ⟨fun p hp => absurd hp (List.not_mem_nil p), List.Pairwise.nil⟩
  | cons p rest ih =>
    intro seen
    unfold dedupeGo
    cases hk : jsKey p with
    | none => exact ih seen
    | some k0 =>
      dsimp only
      by_cases hmem : k0 ∈ seen
      · rw [if_pos hmem]
        exact ih seen
      · rw [if_neg hmem]
        obtain ⟨ihmem, ihpair⟩ := ih (k0 :: seen)
        constructor
        · intro x hx
          rcases List.mem_cons.mp hx with hx | hx
          · subst hx; exact ⟨k0, hk, hmem⟩
          · obtain ⟨kx, hkx, hkxs⟩ := ihmem x hx
            exact ⟨kx, hkx, fun hc => hkxs (List.mem_cons_of_mem k0 hc)⟩
        · refine List.Pairwise.cons ?_ ihpair
          intro b hb
          obtain ⟨kb, hkb, hkbs⟩ := ihmem b hb
          rw [hk, hkb]
          intro hc
          apply hkbs
          rw [← Option.some.inj hc]
          exact List.mem_cons_self k0 seen

/-- Auxiliary: on a list of records whose keys exist, avoid the seen
set and are pairwise distinct, the dedup loop is the identity. -/
theorem dedupeGo_of_fresh :
    ∀ (m : List NormalizedPaper) (seen : List String),
      (∀ p ∈ m, ∃ k, jsKey p = some k ∧ k ∉ seen) →
      m.Pairwise (fun a b => jsKey a ≠ jsKey b) →
      dedupeGo m seen = m := by
  intro m
  induction m with
  | nil => intro seen _ _; rfl
  | cons p rest ih =>
    intro seen hfresh hpair
    obtain ⟨k, hk, hks⟩ := hfresh p (List.mem_cons_self p rest)
    unfold dedupeGo
    rw [hk]
    dsimp only
    rw [if_neg hks]
    congr 1
    apply ih
    · intro x hx
      obtain ⟨kx, hkx, hkxs⟩ := hfresh x (List.mem_cons_of_mem p hx)
      refine ⟨kx, hkx, ?_⟩
      intro hc
      rcases List.mem_cons.mp hc with hc | hc
      · subst hc
        have := (List.pairwise_cons.mp hpair).1 x hx
        rw [hk, hkx] at this
        exact this rfl
      · exact hkxs hc
    · exact (List.pairwise_cons.mp hpair).2

/-- C7: deduplication is idempotent and never lengthens its input. -/
theorem dedupe_idempotent (l : List NormalizedPaper) :
    dedupe (dedupe l) = dedupe l ∧ (dedupe l).length ≤ l.length := by
  constructor
  · unfold dedupe
    apply dedupeGo_of_fresh
    · intro p hp
      obtain ⟨k, hk, _⟩ := (dedupeGo_keys l []).1 p hp
      exact ⟨k, hk, List.not_mem_nil k⟩
    · exact (dedupeGo_keys l []).2
  · exact dedupeGo_length l []

/-- Auxiliary: reading back the field just set. -/
theorem getField_setField_same (acc : SearchResults) (s : SourceKind)
    (v : Option (List RawRecord)) : getField (setField acc s v) s = v := by
  cases s <;> rfl

/-- Auxiliary: setting one source's field leaves the others unchanged. -/
theorem getField_setField_ne (acc : SearchResults) (s s2 : SourceKind)
    (v : Option (List RawRecord)) (h : s2 ≠ s) :
    getField (setField acc s v) s2 = getField acc s2 := by
  cases s <;> cases s2 <;> first | rfl | exact absurd rfl h

/-- Auxiliary: setting a field does not touch the error list. -/
theorem errors_setField (acc : SearchResults) (s : SourceKind)
    (v : Option (List RawRecord)) : (setField acc s v).errors = acc.errors := by
  cases s <;> rfl

/-- Auxiliary: appending an error does not touch any source field. -/
theorem getField_errorsUpdate (acc : SearchResults) (e : List String) (s : SourceKind) :
    getField { acc with errors := e } s = getField acc s := by
  cases s <;> rfl

/-- Auxiliary: the field a single settlement step leaves for a source. -/
theorem getField_stepResult (env : SourceKind → FetchOutcome) (acc : SearchResults)
    (s src : SourceKind) :
    getField (stepResult env acc s) src =
      if src = s ∧ errOf env s = none then fieldOutcome env s else getField acc src := by
  unfold stepResult errOf fieldOutcome
  cases h : adapterSettle s (env s) with
  | ok d =>
    dsimp only
    by_cases hs : src = s
    · subst hs
      rw [getField_setField_same, if_pos ⟨rfl, rfl⟩]
    · rw [getField_setField_ne acc s src (some d) hs, if_neg (fun hc => hs hc.1)]
  | error m =>
    dsimp only
    rw [getField_errorsUpdate, if_neg (fun hc => Option.noConfusion hc.2)]

/-- Auxiliary: the error list a single settlement step produces. -/
theorem errors_stepResult (env : SourceKind → FetchOutcome) (acc : SearchResults)
    (s : SourceKind) :
    (stepResult env acc s).errors = acc.errors ++ (errOf env s).toList := by
  unfold stepResult errOf
  cases adapterSettle s (env s) with
  | ok d =>
    dsimp only
    rw [errors_setField]
    simp
  | error m =>
    dsimp only
    simp [Option.toList]

/-- Auxiliary: the error list accumulated by the settlement fold. -/
theorem errors_foldl (env : SourceKind → FetchOutcome) :
    ∀ (ss : List SourceKind) (acc : SearchResults),
      (List.foldl (stepResult env) acc ss).errors = acc.errors ++ ss.filterMap (errOf env) := by
  intro ss
  induction ss with
  | nil => intro acc; simp
  | cons s rest ih =>
    intro acc
    rw [List.foldl_cons, ih, errors_stepResult, List.filterMap_cons]
    cases h : errOf env s <;> simp [Option.toList, List.append_assoc]

/-- Auxiliary: the field the settlement fold leaves for a source. -/
theorem getField_foldl (env : SourceKind → FetchOutcome) :
    ∀ (ss : List SourceKind) (acc : SearchResults) (src : SourceKind),
      getField (List.foldl (stepResult env) acc ss) src =
        if src ∈ ss ∧ errOf env src = none then fieldOutcome env src else getField acc src := by
  intro ss
  induction ss with
  | nil =>
    intro acc src
    rw [if_neg (fun hc => List.not_mem_nil src hc.1)]
    rfl
  | cons s rest ih =>
    intro acc src
    rw [List.foldl_cons, ih]
    by_cases hmem : src ∈ rest ∧ errOf env src = none
    · rw [if_pos hmem, if_pos ⟨List.mem_cons_of_mem s hmem.1, hmem.2⟩]
    · rw [if_neg hmem, getField_stepResult]
      by_cases hs : src = s ∧ errOf env s = none
      · obtain ⟨hs1, hs2⟩ := hs
        subst hs1
        rw [if_pos ⟨rfl, hs2⟩, if_pos ⟨List.mem_cons_self src rest, hs2⟩]
      · rw [if_neg hs]
        rw [if_neg ?hgoal]
        case hgoal =>
          intro hc
          obtain ⟨hin, herr⟩ := hc
          rcases List.mem_cons.mp hin with hin | hin
          · subst hin; exact hs ⟨rfl, herr⟩
          · exact hmem ⟨hin, herr⟩

/-- Auxiliary: a source contributes no error string exactly when it
contributes a record list. -/
theorem errOf_none_iff (env : SourceKind → FetchOutcome) (src : SourceKind) :
    errOf env src = none ↔ (fieldOutcome env src).isSome := by
  unfold errOf fieldOutcome
  cases adapterSettle src (env src) <;> simp

/-- Auxiliary: every source is configured. -/
theorem mem_sourceOrder (src : SourceKind) : src ∈ sourceOrder := by
  cases src <;> decide

/-- Auxiliary: the empty aggregate has no field set. -/
theorem getField_init (src : SourceKind) : getField {} src = none := by
  cases src <;> rfl

/-- C2 (amended): every configured source gets exactly one outcome — its
field is set iff it contributed no error string, and the error list is
exactly the in-order collection of the failing sources' strings.  A
non-success HTTP status yields an empty record list (not an error
entry); a successful response yields its records; a thrown rejection
yields an empty list for the internally-catching adapters (ERIC, HAL,
INSPIRE-HEP) and an error string plus an unset field for the others. -/
theorem source_outcome_unique (env : SourceKind → FetchOutcome) (src : SourceKind) :
    ((searchMultipleSources env).errors = sourceOrder.filterMap (errOf env)) ∧
    (getField (searchMultipleSources env) src =
      if errOf env src = none then fieldOutcome env src else none) ∧
    ((getField (searchMultipleSources env) src).isSome ↔ errOf env src = none) ∧
    (env src = FetchOutcome.httpFail → getField (searchMultipleSources env) src = some []) ∧
    (∀ d, env src = FetchOutcome.ok d → getField (searchMultipleSources env) src = some d) ∧
    (∀ m, env src = FetchOutcome.reject m →
      if catchesInternally src then
        getField (searchMultipleSources env) src = some [] ∧ errOf env src = none
      else getField (searchMultipleSources env) src = none ∧
        errOf env src = some (errorStringOf src m)) := by
  have herrs : (searchMultipleSources env).errors = sourceOrder.filterMap (errOf env) := by
    unfold searchMultipleSources
    rw [errors_foldl]
    rfl
  have hfield : getField (searchMultipleSources env) src =
      if errOf env src = none then fieldOutcome env src else none := by
    unfold searchMultipleSources
    rw [getField_foldl]
    by_cases herr : errOf env src = none
    · rw [if_pos ⟨mem_sourceOrder src, herr⟩, if_pos herr]
    · rw [if_neg (fun hc => herr hc.2), if_neg herr]
      exact getField_init src
  refine ⟨herrs, hfield, ?_, ?_, ?_, ?_⟩
  · rw [hfield]
    by_cases herr : errOf env src = none
    · rw [if_pos herr]
      simp [herr, (errOf_none_iff env src).mp herr]
    · rw [if_neg herr]
      simp [herr]
  · intro hhf
    rw [hfield]
    have h1 : errOf env src = none := by
      unfold errOf adapterSettle
      rw [hhf]
    have h2 : fieldOutcome env src = some [] := by
      unfold fieldOutcome adapterSettle
      rw [hhf]
    rw [if_pos h1, h2]
  · intro d hok
    rw [hfield]
    have h1 : errOf env src = none := by
      unfold errOf adapterSettle
      rw [hok]
    have h2 : fieldOutcome env src = some d := by
      unfold fieldOutcome adapterSettle
      rw [hok]
    rw [if_pos h1, h2]
  · intro m hrej
    by_cases hcatch : catchesInternally src
    · rw [if_pos hcatch]
      have h1 : errOf env src = none := by
        unfold errOf adapterSettle
        rw [hrej]
        dsimp only
        rw [if_pos hcatch]
      have h2 : fieldOutcome env src = some [] := by
        unfold fieldOutcome adapterSettle
        rw [hrej]
        dsimp only
        rw [if_pos hcatch]
      rw [hfield, if_pos h1, h2]
      exact ⟨rfl, h1⟩
    · rw [if_neg hcatch]
      have h1 : errOf env src = some (errorStringOf src m) := by
        unfold errOf adapterSettle
        rw [hrej]
        dsimp only
        rw [if_neg hcatch]
      rw [hfield, h1]
      exact ⟨by rw [if_neg (by simp)], rfl⟩

/-- Witness for C2: a rejecting non-catching adapter contributes an
error string and no record list. -/
theorem source_outcome_unique_witness :
    getField (searchMultipleSources (fun _ => FetchOutcome.reject "boom"))
      SourceKind.crossref = none ∧
    errOf (fun _ => FetchOutcome.reject "boom") SourceKind.crossref =
      some (errorStringOf SourceKind.crossref "boom") := by
  have h := (source_outcome_unique (fun _ => FetchOutcome.reject "boom")
    SourceKind.crossref).2.2.2.2.2 "boom" rfl
  simpa using h

/-- Counterexample for C2 as frozen: an HTTP failure (non-success
status) on CrossRef yields an empty record list and no error entry,
where the claim demands an error string instead of a list. -/
theorem source_outcome_unique_cex :
    getField (searchMultipleSources (fun _ => FetchOutcome.httpFail))
      SourceKind.crossref = some [] ∧
    (searchMultipleSources (fun _ => FetchOutcome.httpFail)).errors = [] := by
  decide

/-- C8 (amended): author normalization filters falsy entries (empty or
absent names) only for the sources whose mappings end in
`filter(Boolean)` — OpenAlex, zbMATH, ERIC, INSPIRE-HEP and Semantic
Scholar.  CrossRef joins and trims the given/family pair but keeps the
resulting empty string when both are missing; PubMed maps the raw name
field without filtering, so a missing name survives as an absent entry;
HAL passes its raw author array through unchanged; DBLP maps values
without filtering, keeping empty strings. -/
theorem normalize_authors_amended :
    (∀ (l : List OpenAlexAuthorship) (v : JsVal),
      v ∈ (openalexAuthors (some l)).getD [] → jsTruthy v = true) ∧
    (∀ (l : List InspireAuthor) (v : JsVal),
      v ∈ (inspireAuthors (some l)).getD [] → jsTruthy v = true) ∧
    (∀ (l : List S2Author) (v : JsVal),
      v ∈ (s2Authors (some l)).getD [] → jsTruthy v = true) ∧
    (∀ (l : List JsVal) (v : JsVal),
      v ∈ (ericAuthors (some l)).getD [] → jsTruthy v = true) ∧
    (∀ (l : List ZbAuthorVal) (v : JsVal),
      v ∈ (zbAuthors (some l)).getD [] → jsTruthy v = true) ∧
    (∀ (l : List CrossrefAuthor) (v : JsVal),
      v ∈ (crossrefAuthors (some l)).getD [] → ∃ s, v = JsVal.str (jsTrim s)) ∧
    (∀ (l : List CrossrefAuthor) (a : CrossrefAuthor), a ∈ l → a.given = none →
      a.family = none → JsVal.str "" ∈ (crossrefAuthors (some l)).getD []) ∧
    (∀ (l : List PubmedAuthor) (a : PubmedAuthor), a ∈ l → a.name = none →
      JsVal.undef ∈ (pubmedAuthors (some l)).getD []) ∧
    (∀ o : Option (List JsVal), halAuthors o = o) ∧
    (∀ (s : String) (lv : List DblpVal), DblpVal.plain s ∈ lv →
      JsVal.str s ∈ dblpAuthors (DblpAuthorsField.arr lv)) := by
  refine ⟨?_, ?_, ?_, ?_, ?_, ?_, ?_, ?_, ?_, ?_⟩
  · intro l v hv
    simp only [openalexAuthors, Option.map_some', Option.getD_some] at hv
    exact List.of_mem_filter hv
  · intro l v hv
    simp only [inspireAuthors, Option.map_some', Option.getD_some] at hv
    exact List.of_mem_filter hv
  · intro l v hv
    simp only [s2Authors, Option.map_some', Option.getD_some] at hv
    exact List.of_mem_filter hv
  · intro l v hv
    simp only [ericAuthors, Option.map_some', Option.getD_some] at hv
    exact List.of_mem_filter hv
  · intro l v hv
    simp only [zbAuthors, Option.map_some', Option.getD_some] at hv
    exact List.of_mem_filter hv
  · intro l v hv
    simp only [crossrefAuthors, Option.map_some', Option.getD_some] at hv
    obtain ⟨a, _, ha⟩ := List.mem_map.mp hv
    exact ⟨(a.given.getD "") ++ " " ++ (a.family.getD ""), ha.symm⟩
  · intro l a hal hg hf
    simp only [crossrefAuthors, Option.map_some', Option.getD_some]
    refine List.mem_map.mpr ⟨a, hal, ?_⟩
    rw [hg, hf]
    decide
  · intro l a hal hn
    simp only [pubmedAuthors, Option.map_some', Option.getD_some]
    refine List.mem_map.mpr ⟨a, hal, ?_⟩
    rw [hn]
  · intro o
    rfl
  · intro s lv hmem
    have himg : dblpVal (DblpVal.plain s) = JsVal.str s := rfl
    rw [← himg]
    exact List.mem_map_of_mem _ hmem

/-- Witness for C8 on concrete raw records: a nameless CrossRef author
survives as the empty string, a nameless PubMed author survives as an
absent entry, and an OpenAlex record filters such entries out. -/
theorem normalize_authors_amended_witness :
    JsVal.str "" ∈ (crossrefAuthors (some [{ given := none, family := none }])).getD [] ∧
    JsVal.undef ∈ (pubmedAuthors (some [{ name := none }])).getD [] := by
  constructor
  · exact normalize_authors_amended.2.2.2.2.2.2.1
      [{ given := none, family := none }] { given := none, family := none }
      (List.mem_singleton.mpr rfl) rfl rfl
  · exact normalize_authors_amended.2.2.2.2.2.2.2.1
      [{ name := none }] { name := none } (List.mem_singleton.mpr rfl) rfl

/-- Counterexample for C8 as frozen: a CrossRef author with neither
given nor family name normalizes to the empty display string, and a
PubMed author with no name normalizes to an absent entry — both falsy
values the claim says are omitted. -/
theorem normalize_authors_cex :
    crossrefAuthors (some [{ given := none, family := none }]) = some [JsVal.str ""] ∧
    pubmedAuthors (some [{ name := none }]) = some [JsVal.undef] ∧
    jsTruthy (JsVal.str "") = false ∧
    jsTruthy JsVal.undef = false := by
  decide
